import Mathlib

/-!
Verification of the calcaneal-pitch analyzer of `pes_planus_app`.

Shallow embedding of the measurement core:
* `src/core/geometry.py` — `calculate_angle`, `get_angle_classification`;
* `src/ai/analyzer.py` — the keypoint extraction and angle computation of
  `analyze_calcaneal_pitch` (lines 39-187), its empty-mask branch (lines 32-35),
  and the control flow of `PesPlanusAnalyzer._load_model` / `PesPlanusAnalyzer.analyze`.

Pixel coordinates are embedded as `ℤ × ℤ` (the OpenCV contour coordinates are
machine integers); floating-point arithmetic is embedded as real arithmetic, with
Python's `round(x, n)` modelled as rounding `10^n * x` to the nearest integer.
Python's `int()` on a nonnegative quotient truncates, modelled with `Int.tdiv`.
The OpenCV calls `cv2.findContours` / `cv2.convexHull` are not re-modelled: the
pipeline below consumes the list of contours and the list of convex-hull points
directly, exactly as the keypoint logic in `analyze_calcaneal_pitch` does.
-/

/-- A pixel point `(x, y)` in image coordinates; `y` grows downward. -/
abbrev Pt : Type := ℤ × ℤ

/-- Python `round(x, 1)`: one-decimal rounding (`pitch_angle = round(pitch_angle, 1)`). -/
noncomputable def round1 (x : ℝ) : ℝ := ((round (10 * x) : ℤ) : ℝ) / 10

/-- Python `round(x, 2)`: two-decimal rounding (`return round(angle, 2)` in geometry.py). -/
noncomputable def round2 (x : ℝ) : ℝ := ((round (100 * x) : ℤ) : ℝ) / 100

/-- Embedding of `math.degrees`. -/
noncomputable def degOf (x : ℝ) : ℝ := x * 180 / Real.pi

/-- The clamping `max(min(cos_theta, 1.0), -1.0)` applied to the cosine in
`calculate_angle` (geometry.py line 25). -/
noncomputable def clampCos (c : ℝ) : ℝ := max (min c 1) (-1)

/-- Embedding of `calculate_angle(p1, p2, p3, p4)` from `src/core/geometry.py` (lines 3-35):
the unsigned angle between vectors `p2 - p1` and `p4 - p3`, zero when either
vector is zero, in degrees rounded to two decimals. -/
noncomputable def calculate_angle (p1 p2 p3 p4 : ℝ × ℝ) : ℝ :=
  let v1x := p2.1 - p1.1
  let v1y := p2.2 - p1.2
  let v2x := p4.1 - p3.1
  let v2y := p4.2 - p3.2
  let dot := v1x * v2x + v1y * v2y
  let mag1 := Real.sqrt (v1x ^ 2 + v1y ^ 2)
  let mag2 := Real.sqrt (v2x ^ 2 + v2y ^ 2)
  if mag1 = 0 ∨ mag2 = 0 then 0
  else round2 (degOf (Real.arccos (clampCos (dot / (mag1 * mag2)))))

/-- Embedding of `get_angle_classification(angle, mode)` from `src/core/geometry.py` (lines 37-88):
returns `(category_name, color_hex)`. -/
noncomputable def get_angle_classification (angle : ℝ) (mode : String) : String × String :=
  if mode = "calcaneal" then
    if angle < 15 then ("Pes Planus", "#ff7675")
    else if 15 ≤ angle ∧ angle < 20 then ("Borderline", "#ffeaa7")
    else ("Normal", "#55efc4")
  else if mode = "mearys" then
    let deviation := if angle > 90 then |180 - angle| else angle
    if deviation ≤ 4 then ("Normal", "#55efc4")
    else if 4 < deviation ∧ deviation ≤ 15 then ("Hafif Pes Planus", "#ffeaa7")
    else if 15 < deviation ∧ deviation ≤ 30 then ("Şiddetli Pes Planus", "#ff7675")
    else ("Deformite / Hata", "#fab1a0")
  else ("Bilinmiyor", "#b2bec3")

/-- Smallest x-coordinate of a point list (the `x` of `cv2.boundingRect`; the hull
attains the same horizontal extremes as the contour). Junk value `0` on `[]`. -/
def minX : List Pt → ℤ
  | [] => 0
  | p :: ps => ps.foldl (fun m q => min m q.1) p.1

/-- Largest x-coordinate of a point list. Junk value `0` on `[]`. -/
def maxX : List Pt → ℤ
  | [] => 0
  | p :: ps => ps.foldl (fun m q => max m q.1) p.1

/-- The split boundary `mid_x = x + w // 2` (analyzer.py line 42) with `x = minX`, `w = maxX - minX + 1`
from the bounding rectangle; `w ≥ 1` on nonempty input, so `/` matches Python `//`. -/
def midX (pts : List Pt) : ℤ := minX pts + (maxX pts - minX pts + 1) / 2

/-- The filter `left_half = [pt for pt in hull_points if pt[0] < mid_x]` (line 49). -/
def leftHalf (pts : List Pt) : List Pt := pts.filter (fun p => p.1 < midX pts)

/-- The filter `right_half = [pt for pt in hull_points if pt[0] >= mid_x]` (line 50). -/
def rightHalf (pts : List Pt) : List Pt := pts.filter (fun p => midX pts ≤ p.1)

/-- The deepest level `y_max = max(y_values)` over a half (line 61). Junk value `0` on `[]`. -/
def yMaxOf (pts : List Pt) : ℤ := ((pts.map Prod.snd).maximum).getD 0

/-- The filter `candidates = [p for p in points if p[1] == y_max]` (line 65). -/
def deepCandidates (pts : List Pt) : List Pt := pts.filter (fun p => p.2 = yMaxOf pts)

/-- Embedding of `get_corner_point(points, is_left_half)` (analyzer.py lines 56-74): `None` on an
empty half; otherwise the point whose y is the shared deepest level and whose x is
`int(mean of candidate xs)` (truncating division); the `if not candidates` guard of
line 67 (returning `points[0]`) is kept although it is unreachable. -/
def getCornerPoint : List Pt → Option Pt
  | [] => none
  | p :: ps =>
    let cs := deepCandidates (p :: ps)
    if cs.length = 0 then some p
    else some (Int.tdiv ((cs.map Prod.fst).sum) (cs.length : ℤ), yMaxOf (p :: ps))

/-- Python `max(xs, key=f)`: the first element attaining the maximal key. -/
def argmaxKey (f : Pt → ℤ) : List Pt → Option Pt
  | [] => none
  | p :: ps => some (ps.foldl (fun b q => if f b < f q then q else b) p)

/-- Python `min(xs, key=f)`: the first element attaining the minimal key. -/
def argminKey (f : Pt → ℤ) : List Pt → Option Pt
  | [] => none
  | p :: ps => some (ps.foldl (fun b q => if f q < f b then q else b) p)

/-- The landmark pair and inferred orientation produced by `analyze_calcaneal_pitch`. -/
structure Keypoints where
  pa : Pt
  pb : Pt
  heelIsLeft : Bool
  deriving DecidableEq, Repr

/-- Keypoint detection of `analyze_calcaneal_pitch` (analyzer.py lines 79-119) on the
hull points: corner points per half with the leftmost/rightmost-point fallbacks of
lines 83-84, the orientation test `p1_deepest[1] >= p2_deepest[1]` of line 91, and
the anterior-point re-selection (`max` of `x + y` on the right half when the heel is
left, `min` of `x - y` on the left half when the heel is right). -/
def extractKeypoints (pts : List Pt) : Keypoints :=
  let lh := leftHalf pts
  let rh := rightHalf pts
  let p1 := (getCornerPoint lh).getD ((argminKey (fun p => p.1) pts).getD (0, 0))
  let p2 := (getCornerPoint rh).getD ((argmaxKey (fun p => p.1) pts).getD (0, 0))
  if p2.2 ≤ p1.2 then
    { pa := p1, pb := (argmaxKey (fun p => p.1 + p.2) rh).getD p2, heelIsLeft := true }
  else
    { pa := p2, pb := (argminKey (fun p => p.1 - p.2) lh).getD p1, heelIsLeft := false }

/-- The pitch-angle computation of `analyze_calcaneal_pitch` (lines 152-161):
`90.0` when `dx = 0`, otherwise `atan(abs(dy) / abs(dx))` in degrees rounded to
one decimal. -/
noncomputable def pitchAngle (dx dy : ℤ) : ℝ :=
  if dx = 0 then 90
  else round1 (degOf (Real.arctan (|(dy : ℝ)| / |(dx : ℝ)|)))

/-- Pitch angle computed from hull points: keypoints, then `dx, dy = pb - pa`. -/
noncomputable def pitchFromHull (pts : List Pt) : ℝ :=
  let k := extractKeypoints pts
  pitchAngle (k.pb.1 - k.pa.1) (k.pb.2 - k.pa.2)

/-- Ground-line endpoints (analyzer.py lines 125-143): horizontal at the heel's y,
extended 250 px toward the toes, clipped to the image. -/
def groundLineOf (k : Keypoints) (wImg : ℤ) : Pt × Pt :=
  if k.heelIsLeft then ((k.pa.1, k.pa.2), (min wImg (k.pa.1 + 250), k.pa.2))
  else ((max 0 (k.pa.1 - 250), k.pa.2), (k.pa.1, k.pa.2))

/-- Left-right mirroring of a pixel in an image of width `w`: `x ↦ w - 1 - x`. -/
def mirrorPt (w : ℤ) (p : Pt) : Pt := (w - 1 - p.1, p.2)

/-- Numeric output of `analyze_calcaneal_pitch`: angle, calcaneus segment, ground
segment (the visualization raster is not modelled). -/
structure PitchOut where
  angle : ℝ
  calcLine : Pt × Pt
  groundLine : Pt × Pt

/-- Embedding of `analyze_calcaneal_pitch` after mask cleaning (analyzer.py lines 32-187): with no
contour it returns the sentinel `0.0` with all-origin segments (lines 34-35);
otherwise it runs the keypoint logic on the convex-hull points of the largest
contour, which are taken here as the `hull` argument. -/
noncomputable def analyzeCalcanealPitch (contours : List (List Pt)) (hull : List Pt)
    (wImg : ℤ) : PitchOut :=
  if contours = [] then
    { angle := 0, calcLine := ((0, 0), (0, 0)), groundLine := ((0, 0), (0, 0)) }
  else
    let k := extractKeypoints hull
    { angle := pitchAngle (k.pb.1 - k.pa.1) (k.pb.2 - k.pa.2)
      calcLine := (k.pa, k.pb)
      groundLine := groundLineOf k wImg }

/-- The classification of `PesPlanusAnalyzer.analyze` (analyzer.py lines 288-299):
`(category, color)`. -/
noncomputable def classifyAngle (angle : ℝ) : String × String :=
  if angle < 15 then ("Pes Planus", "#ff0000")
  else if angle < 20 then ("Sınırda (Borderline)", "#ffae00")
  else if angle ≤ 30 then ("Normal", "#00ff00")
  else ("Pes Cavus", "#ff0000")

/-- Embedding of `PesPlanusAnalyzer._load_model` (analyzer.py lines 201-226): a missing weights
file leaves the model unset; a load exception resets it to `None`. -/
def loadModel (fileExists weightsLoadOk : Bool) : Option Unit :=
  if fileExists then (if weightsLoadOk then some () else none) else none

/-- The input taxonomy of `PesPlanusAnalyzer.analyze` (lines 243-261): a path string
(readable or not — the DICOM/raster distinction only selects the loader), a decoded
array, or anything else. -/
inductive ImgInput
  | path (readable : Bool)
  | ndarray
  | invalid
  deriving DecidableEq, Repr

/-- The observable stages of one `analyze` call, recorded as a trace. -/
inductive PipeStep
  | loadImage
  | predict
  | geometry
  | classify
  deriving DecidableEq, Repr

/-- The result dictionary of `PesPlanusAnalyzer.analyze`: error paths return a dict
with only an `"error"` key; the success path returns angle, diagnosis, color and the
`[calc_pts, ground_pts]` line list (the `visualized_image` entry is not modelled). -/
structure AnalyzeOutput where
  error : Option String
  angle : ℝ
  diagnosis : String
  rawColor : String
  lines : List (Pt × Pt)

/-- Control flow of `PesPlanusAnalyzer.analyze` (analyzer.py lines 238-308), with
the mask-to-contours step abstracted as the `contours`/`hull` arguments and each
pipeline stage recorded in a trace: input decoding first (the unreadable-path
message `"Görüntü okunamadı: {path}"` is modelled without the interpolated path),
then the `self.model is None` check, then prediction, geometry and classification. -/
noncomputable def analyze (model : Option Unit) (input : ImgInput)
    (contours : List (List Pt)) (hull : List Pt) (wImg : ℤ) :
    AnalyzeOutput × List PipeStep :=
  match input with
  | .invalid =>
    ({ error := some "Geçersiz giriş formatı", angle := 0, diagnosis := "",
       rawColor := "", lines := [] }, [])
  | .path false =>
    ({ error := some "Görüntü okunamadı", angle := 0, diagnosis := "",
       rawColor := "", lines := [] }, [.loadImage])
  | inp =>
    let steps0 : List PipeStep := if inp = .ndarray then [] else [.loadImage]
    match model with
    | none =>
      ({ error := some "Model yüklü değil", angle := 0, diagnosis := "",
         rawColor := "", lines := [] }, steps0)
    | some _ =>
      let r := analyzeCalcanealPitch contours hull wImg
      let c := classifyAngle r.angle
      ({ error := none, angle := r.angle, diagnosis := c.1, rawColor := c.2,
         lines := [r.calcLine, r.groundLine] }, steps0 ++ [.predict, .geometry, .classify])

/-- Convex-hull vertex list used as the mirror-invariance counterexample: the convex
polygon (0,0)-(7,0)-(5,10)-(3,10)-(1,9) inside an image of width 8. -/
def hullExample : List Pt := [(0, 0), (7, 0), (5, 10), (3, 10), (1, 9)]

/-! ### Helper lemmas about rounding and degrees -/

theorem round1_nonneg {x : ℝ} (hx : 0 ≤ x) : 0 ≤ round1 x := by
  unfold round1
  have h : (0 : ℤ) ≤ round (10 * x) := by
    rw [round_eq]
    exact Int.le_floor.mpr (by push_cast; linarith)
  have h' : (0 : ℝ) ≤ ((round (10 * x) : ℤ) : ℝ) := by exact_mod_cast h
  linarith

theorem round1_le_90 {x : ℝ} (hx : x < 90) : round1 x ≤ 90 := by
  unfold round1
  have h : round (10 * x) < 901 := by
    rw [round_eq]
    exact Int.floor_lt.mpr (by push_cast; linarith)
  have h2 : round (10 * x) ≤ 900 := by omega
  have h' : ((round (10 * x) : ℤ) : ℝ) ≤ 900 := by exact_mod_cast h2
  linarith

theorem round1_pos {x : ℝ} (hx : 1 ≤ x) : 0 < round1 x := by
  unfold round1
  have h : (1 : ℤ) ≤ round (10 * x) := by
    rw [round_eq]
    exact Int.le_floor.mpr (by push_cast; linarith)
  have h' : (1 : ℝ) ≤ ((round (10 * x) : ℤ) : ℝ) := by exact_mod_cast h
  linarith

theorem round1_zero : round1 0 = 0 := by
  unfold round1
  norm_num

theorem round2_nonneg {x : ℝ} (hx : 0 ≤ x) : 0 ≤ round2 x := by
  unfold round2
  have h : (0 : ℤ) ≤ round (100 * x) := by
    rw [round_eq]
    exact Int.le_floor.mpr (by push_cast; linarith)
  have h' : (0 : ℝ) ≤ ((round (100 * x) : ℤ) : ℝ) := by exact_mod_cast h
  linarith

theorem round2_le_180 {x : ℝ} (hx : x ≤ 180) : round2 x ≤ 180 := by
  unfold round2
  have h : round (100 * x) < 18001 := by
    rw [round_eq]
    exact Int.floor_lt.mpr (by push_cast; linarith)
  have h2 : round (100 * x) ≤ 18000 := by omega
  have h' : ((round (100 * x) : ℤ) : ℝ) ≤ 18000 := by exact_mod_cast h2
  linarith

theorem round2_of_180 : round2 180 = 180 := by
  unfold round2
  rw [show ((100 : ℝ) * 180) = ((18000 : ℤ) : ℝ) by norm_num, round_intCast]
  norm_num

theorem degOf_nonneg {x : ℝ} (hx : 0 ≤ x) : 0 ≤ degOf x := by
  unfold degOf
  exact div_nonneg (mul_nonneg hx (by norm_num)) Real.pi_pos.le

theorem degOf_lt_90 {x : ℝ} (hx : x < Real.pi / 2) : degOf x < 90 := by
  unfold degOf
  rw [div_lt_iff Real.pi_pos]
  linarith

theorem degOf_le_180 {x : ℝ} (hx : x ≤ Real.pi) : degOf x ≤ 180 := by
  unfold degOf
  rw [div_le_iff Real.pi_pos]
  linarith

theorem degOf_pi : degOf Real.pi = 180 := by
  unfold degOf
  field_simp

theorem degOf_zero : degOf 0 = 0 := by
  unfold degOf
  simp

theorem arctan_nonneg' {x : ℝ} (hx : 0 ≤ x) : 0 ≤ Real.arctan x := by
  rw [← Real.arctan_zero]
  exact Real.arctan_strictMono.monotone hx

/-! ### Helper lemmas about Python-style max/min with key -/

theorem foldl_pickMax_spec (f : Pt → ℤ) (ps : List Pt) :
    ∀ p : Pt,
      (ps.foldl (fun b q => if f b < f q then q else b) p ∈ p :: ps) ∧
      f p ≤ f (ps.foldl (fun b q => if f b < f q then q else b) p) ∧
      ∀ q ∈ ps, f q ≤ f (ps.foldl (fun b q => if f b < f q then q else b) p) := by
  induction ps with
  | nil => intro p; simp
  | cons a as ih =>
    intro p
    simp only [List.foldl_cons]
    by_cases hpa : f p < f a
    · rw [if_pos hpa]
      obtain ⟨hmem, hle, hall⟩ := ih a
      refine ⟨List.mem_cons_of_mem p hmem, le_trans hpa.le hle, ?_⟩
      intro q hq
      rcases List.mem_cons.mp hq with rfl | hq2
      · exact hle
      · exact hall q hq2
    · rw [if_neg hpa]
      obtain ⟨hmem, hle, hall⟩ := ih p
      refine ⟨?_, hle, ?_⟩
      · rcases List.mem_cons.mp hmem with h | h
        · rw [h]; exact List.mem_cons_self p (a :: as)
        · exact List.mem_cons_of_mem p (List.mem_cons_of_mem a h)
      · intro q hq
        rcases List.mem_cons.mp hq with rfl | hq2
        · exact le_trans (not_lt.mp hpa) hle
        · exact hall q hq2

theorem foldl_pickMin_spec (f : Pt → ℤ) (ps : List Pt) :
    ∀ p : Pt,
      (ps.foldl (fun b q => if f q < f b then q else b) p ∈ p :: ps) ∧
      f (ps.foldl (fun b q => if f q < f b then q else b) p) ≤ f p ∧
      ∀ q ∈ ps, f (ps.foldl (fun b q => if f q < f b then q else b) p) ≤ f q := by
  induction ps with
  | nil => intro p; simp
  | cons a as ih =>
    intro p
    simp only [List.foldl_cons]
    by_cases hpa : f a < f p
    · rw [if_pos hpa]
      obtain ⟨hmem, hle, hall⟩ := ih a
      refine ⟨List.mem_cons_of_mem p hmem, le_trans hle hpa.le, ?_⟩
      intro q hq
      rcases List.mem_cons.mp hq with rfl | hq2
      · exact hle
      · exact hall q hq2
    · rw [if_neg hpa]
      obtain ⟨hmem, hle, hall⟩ := ih p
      refine ⟨?_, hle, ?_⟩
      · rcases List.mem_cons.mp hmem with h | h
        · rw [h]; exact List.mem_cons_self p (a :: as)
        · exact List.mem_cons_of_mem p (List.mem_cons_of_mem a h)
      · intro q hq
        rcases List.mem_cons.mp hq with rfl | hq2
        · exact le_trans hle (not_lt.mp hpa)
        · exact hall q hq2

theorem argmaxKey_spec (f : Pt → ℤ) (p : Pt) (ps : List Pt) :
    ∃ b, argmaxKey f (p :: ps) = some b ∧ b ∈ p :: ps ∧ ∀ q ∈ p :: ps, f q ≤ f b := by
  obtain ⟨hmem, hle, hall⟩ := foldl_pickMax_spec f ps p
  refine ⟨_, rfl, hmem, ?_⟩
  intro q hq
  rcases List.mem_cons.mp hq with rfl | hq2
  · exact hle
  · exact hall q hq2

theorem argminKey_spec (f : Pt → ℤ) (p : Pt) (ps : List Pt) :
    ∃ b, argminKey f (p :: ps) = some b ∧ b ∈ p :: ps ∧ ∀ q ∈ p :: ps, f b ≤ f q := by
  obtain ⟨hmem, hle, hall⟩ := foldl_pickMin_spec f ps p
  refine ⟨_, rfl, hmem, ?_⟩
  intro q hq
  rcases List.mem_cons.mp hq with rfl | hq2
  · exact hle
  · exact hall q hq2

theorem argmaxKey_eq_none_iff (f : Pt → ℤ) (pts : List Pt) :
    argmaxKey f pts = none ↔ pts = [] := by
  cases pts <;> simp [argmaxKey]

theorem argminKey_eq_none_iff (f : Pt → ℤ) (pts : List Pt) :
    argminKey f pts = none ↔ pts = [] := by
  cases pts <;> simp [argminKey]

/-! ### Helper lemmas about the deepest-level candidates -/

theorem yMaxOf_mem {pts : List Pt} (hne : pts ≠ []) : ∃ p ∈ pts, p.2 = yMaxOf pts := by
  have hmap : pts.map Prod.snd ≠ [] := by
    intro h
    exact hne (List.map_eq_nil.mp h)
  cases hM : (pts.map Prod.snd).maximum with
  | bot => exact absurd hM (List.maximum_ne_bot_of_ne_nil hmap)
  | coe m =>
    have hmem : m ∈ pts.map Prod.snd := List.maximum_mem hM
    obtain ⟨p, hp, hpm⟩ := List.mem_map.mp hmem
    refine ⟨p, hp, ?_⟩
    unfold yMaxOf
    rw [hM, hpm]
    rfl

theorem le_yMaxOf {pts : List Pt} {p : Pt} (hp : p ∈ pts) : p.2 ≤ yMaxOf pts := by
  have hle : (↑p.2 : WithBot ℤ) ≤ (pts.map Prod.snd).maximum :=
    List.le_maximum_of_mem' (List.mem_map_of_mem Prod.snd hp)
  cases hM : (pts.map Prod.snd).maximum with
  | bot =>
    rw [hM] at hle
    exact absurd hle (by simp)
  | coe m =>
    rw [hM] at hle
    unfold yMaxOf
    rw [hM]
    exact_mod_cast hle

theorem deepCandidates_ne_nil {pts : List Pt} (hne : pts ≠ []) : deepCandidates pts ≠ [] := by
  obtain ⟨p, hp, hpm⟩ := yMaxOf_mem hne
  exact List.ne_nil_of_mem (List.mem_filter.mpr ⟨hp, by simp [hpm]⟩)

theorem getCornerPoint_eq_none_iff (pts : List Pt) : getCornerPoint pts = none ↔ pts = [] := by
  cases pts with
  | nil => simp [getCornerPoint]
  | cons p ps =>
    simp only [getCornerPoint]
    constructor
    · intro h
      split at h <;> simp_all
    · intro h
      exact absurd h (List.cons_ne_nil p ps)

theorem getCornerPoint_of_ne_nil {pts : List Pt} (hne : pts ≠ []) :
    getCornerPoint pts =
      some (Int.tdiv ((deepCandidates pts).map Prod.fst).sum ((deepCandidates pts).length : ℤ),
        yMaxOf pts) := by
  cases pts with
  | nil => exact absurd rfl hne
  | cons p ps =>
    have hcs : deepCandidates (p :: ps) ≠ [] := deepCandidates_ne_nil hne
    simp only [getCornerPoint]
    rw [if_neg (by simpa [List.length_eq_zero] using hcs)]

/-! ### Permutation invariance of the corner-point selection -/

theorem maximum_perm {l1 l2 : List ℤ} (h : l1.Perm l2) : l1.maximum = l2.maximum := by
  cases hM : l1.maximum with
  | bot =>
    have h1 : l1 = [] := List.maximum_eq_bot.mp hM
    subst h1
    have h2 : l2 = [] := List.Perm.eq_nil h.symm
    rw [h2]
    exact List.maximum_nil.symm
  | coe m =>
    have hm := List.maximum_eq_coe_iff.mp hM
    exact (List.maximum_eq_coe_iff.mpr
      ⟨h.subset hm.1, fun a ha => hm.2 a (h.symm.subset ha)⟩).symm

theorem yMaxOf_perm {pts1 pts2 : List Pt} (h : pts1.Perm pts2) : yMaxOf pts1 = yMaxOf pts2 := by
  unfold yMaxOf
  rw [maximum_perm (h.map Prod.snd)]

theorem deepCandidates_perm {pts1 pts2 : List Pt} (h : pts1.Perm pts2) :
    (deepCandidates pts1).Perm (deepCandidates pts2) := by
  unfold deepCandidates
  rw [yMaxOf_perm h]
  exact h.filter (fun p => decide (p.2 = yMaxOf pts2))

theorem getCornerPoint_perm {pts1 pts2 : List Pt} (h : pts1.Perm pts2) :
    getCornerPoint pts1 = getCornerPoint pts2 := by
  by_cases hne : pts1 = []
  · subst hne
    have h2 : pts2 = [] := List.Perm.eq_nil h.symm
    rw [h2]
  · have hne2 : pts2 ≠ [] := fun h2 => hne (List.Perm.eq_nil (h2 ▸ h))
    rw [getCornerPoint_of_ne_nil hne, getCornerPoint_of_ne_nil hne2]
    have hd : (deepCandidates pts1).Perm (deepCandidates pts2) := deepCandidates_perm h
    rw [yMaxOf_perm h, (hd.map Prod.fst).sum_eq, hd.length_eq]

/-! ### Claim theorems -/

theorem pitchAngle_range (dx dy : ℤ) : 0 ≤ pitchAngle dx dy ∧ pitchAngle dx dy ≤ 90 := by
  unfold pitchAngle
  split
  · norm_num
  · exact ⟨round1_nonneg (degOf_nonneg (arctan_nonneg'
      (div_nonneg (abs_nonneg _) (abs_nonneg _)))),
    round1_le_90 (degOf_lt_90 (Real.arctan_lt_pi_div_two _))⟩

/-- C1: for every landmark pair with `dx, dy = Point B − Point A`, the reported pitch
angle is `90.0` when `dx = 0` and otherwise `atan(|dy|/|dx|)` in degrees rounded to one
decimal, and in every case (hence for every hull input) it lies in `[0, 90]`. -/
theorem pitch_formula_and_range (dx dy : ℤ) :
    (dx = 0 → pitchAngle dx dy = 90) ∧
    (dx ≠ 0 → pitchAngle dx dy =
      round1 (degOf (Real.arctan (|(dy : ℝ)| / |(dx : ℝ)|)))) ∧
    0 ≤ pitchAngle dx dy ∧ pitchAngle dx dy ≤ 90 ∧
    ∀ pts : List Pt, 0 ≤ pitchFromHull pts ∧ pitchFromHull pts ≤ 90 := by
  refine ⟨fun h => by simp [pitchAngle, h], fun h => by simp [pitchAngle, h],
    (pitchAngle_range dx dy).1, (pitchAngle_range dx dy).2, fun pts => ?_⟩
  exact pitchAngle_range _ _

/-- Witness for C1 at the concrete landmark pairs `dx = 0, dy = 5` and `dx = 3, dy = 4`. -/
theorem pitch_formula_and_range_witness :
    pitchAngle 0 5 = 90 ∧ 0 ≤ pitchAngle 3 4 :=
  ⟨(pitch_formula_and_range 0 5).1 rfl, (pitch_formula_and_range 3 4).2.2.1⟩

/-- C2 as amended: on the analyzer's classification path the boundaries are
`< 15 ↦ Pes Planus`, `[15, 20) ↦ Sınırda (Borderline)`, `[20, 30] ↦ Normal`,
`> 30 ↦ Pes Cavus`; on the geometry-helper calcaneal path every angle `≥ 20`
is classified `Normal` — that path has no Pes Cavus category. -/
theorem classify_boundaries (a : ℝ) :
    (a < 15 → (classifyAngle a).1 = "Pes Planus") ∧
    (15 ≤ a → a < 20 → (classifyAngle a).1 = "Sınırda (Borderline)") ∧
    (20 ≤ a → a ≤ 30 → (classifyAngle a).1 = "Normal") ∧
    (30 < a → (classifyAngle a).1 = "Pes Cavus") ∧
    (20 ≤ a → (get_angle_classification a "calcaneal").1 = "Normal") := by
  refine ⟨?_, ?_, ?_, ?_, ?_⟩
  · intro h
    unfold classifyAngle
    rw [if_pos h]
  · intro h1 h2
    unfold classifyAngle
    rw [if_neg (by linarith), if_pos h2]
  · intro h1 h2
    unfold classifyAngle
    rw [if_neg (by linarith), if_neg (by linarith), if_pos h2]
  · intro h
    unfold classifyAngle
    rw [if_neg (by linarith), if_neg (by linarith), if_neg (by linarith)]
  · intro h
    unfold get_angle_classification
    rw [if_pos rfl, if_neg (by linarith), if_neg (by rintro ⟨h1, h2⟩; linarith)]

/-- Witness for C2 at the boundary angles 15.0, 20.0, 30.0, 30.1. -/
theorem classify_boundaries_witness :
    (classifyAngle 15).1 = "Sınırda (Borderline)" ∧ (classifyAngle 20).1 = "Normal" ∧
    (classifyAngle 30).1 = "Normal" ∧ (classifyAngle 30.1).1 = "Pes Cavus" ∧
    (get_angle_classification 30.1 "calcaneal").1 = "Normal" :=
  ⟨(classify_boundaries 15).2.1 (by norm_num) (by norm_num),
   (classify_boundaries 20).2.2.1 (by norm_num) (by norm_num),
   (classify_boundaries 30).2.2.1 (by norm_num) (by norm_num),
   (classify_boundaries 30.1).2.2.2.1 (by norm_num),
   (classify_boundaries 30.1).2.2.2.2 (by norm_num)⟩

/-- C2 counterexample: the program also classifies through
`get_angle_classification(angle, "calcaneal")` (called by the UI on the analyzer's
result), and there an angle of 30.1 yields "Normal", not "Pes Cavus". -/
theorem classify_cavus_path_cex :
    (get_angle_classification 30.1 "calcaneal").1 = "Normal" ∧
    ("Normal" : String) ≠ "Pes Cavus" := by
  constructor
  · unfold get_angle_classification
    rw [if_pos rfl, if_neg (by norm_num), if_neg (by rintro ⟨h1, h2⟩; norm_num at h2)]
  · decide

/-- C10: the manual two-line angle is total and clamped: the cosine argument is clamped
to `[-1, 1]`, a zero-length segment yields 0.0, and the result always lies in `[0, 180]`
(two-decimal rounding). -/
theorem calculate_angle_total_and_bounded (p1 p2 p3 p4 : ℝ × ℝ) :
    (∀ c : ℝ, -1 ≤ clampCos c ∧ clampCos c ≤ 1) ∧
    (p1 = p2 → calculate_angle p1 p2 p3 p4 = 0) ∧
    (p3 = p4 → calculate_angle p1 p2 p3 p4 = 0) ∧
    0 ≤ calculate_angle p1 p2 p3 p4 ∧ calculate_angle p1 p2 p3 p4 ≤ 180 := by
  have hclamp : ∀ c : ℝ, -1 ≤ clampCos c ∧ clampCos c ≤ 1 := fun c =>
    ⟨le_max_right _ _, max_le (min_le_right c 1) (by norm_num)⟩
  refine ⟨hclamp, ?_, ?_, ?_⟩
  · intro h
    subst h
    simp [calculate_angle]
  · intro h
    subst h
    simp [calculate_angle]
  · simp only [calculate_angle]
    split
    · norm_num
    · exact ⟨round2_nonneg (degOf_nonneg (Real.arccos_nonneg _)),
        round2_le_180 (degOf_le_180 (Real.arccos_le_pi _))⟩

/-- Witness for C10: a degenerate first segment yields exactly 0. -/
theorem calculate_angle_total_and_bounded_witness :
    calculate_angle (0, 0) (0, 0) (1, 2) (3, 4) = 0 :=
  (calculate_angle_total_and_bounded (0, 0) (0, 0) (1, 2) (3, 4)).2.1 rfl

/-- C4: evaluating both recompute paths at the failing drag input — calcaneus segment
(0,0)→(1,0) over ground segment (1,0)→(0,0) — the manual path `calculate_angle`
returns the two-sided vector angle 180.0 while the analysis pipeline's absolute-slope
formula returns 0.0, so the manual path does not implement the same formula (and the
actual call passes a `one_sided` keyword `calculate_angle` does not accept). -/
theorem manual_recompute_formula_mismatch :
    calculate_angle (0, 0) (1, 0) (1, 0) (0, 0) = 180 ∧ pitchAngle 1 0 = 0 ∧
    ((180 : ℝ) ≠ 0) := by
  refine ⟨?_, ?_, by norm_num⟩
  · simp only [calculate_angle, clampCos]
    norm_num [Real.sqrt_one]
    rw [degOf_pi, round2_of_180]
  · unfold pitchAngle
    rw [if_neg (by norm_num)]
    norm_num [Real.arctan_zero, degOf_zero, round1_zero]

/-- C5: with both halves nonempty (corner landmarks `c1`, `c2`), the half whose landmark
is strictly deeper becomes the heel side and its landmark Point A; Point B is then
re-selected from the opposite half as the point maximizing `x + y` (toe side right)
resp. minimizing `x − y` (toe side left). -/
theorem orientation_and_point_b_selection (pts : List Pt) (c1 c2 : Pt)
    (h1 : getCornerPoint (leftHalf pts) = some c1)
    (h2 : getCornerPoint (rightHalf pts) = some c2) :
    (c2.2 < c1.2 →
      (extractKeypoints pts).heelIsLeft = true ∧ (extractKeypoints pts).pa = c1 ∧
      (extractKeypoints pts).pb ∈ rightHalf pts ∧
      ∀ q ∈ rightHalf pts,
        q.1 + q.2 ≤ (extractKeypoints pts).pb.1 + (extractKeypoints pts).pb.2) ∧
    (c1.2 < c2.2 →
      (extractKeypoints pts).heelIsLeft = false ∧ (extractKeypoints pts).pa = c2 ∧
      (extractKeypoints pts).pb ∈ leftHalf pts ∧
      ∀ q ∈ leftHalf pts,
        (extractKeypoints pts).pb.1 - (extractKeypoints pts).pb.2 ≤ q.1 - q.2) := by
  have hrne : rightHalf pts ≠ [] := by
    intro h
    rw [h] at h2
    exact Option.noConfusion h2
  have hlne : leftHalf pts ≠ [] := by
    intro h
    rw [h] at h1
    exact Option.noConfusion h1
  constructor
  · intro hlt
    obtain ⟨a, as, ha⟩ := List.exists_cons_of_ne_nil hrne
    obtain ⟨b, hb, hbmem, hbmax⟩ := argmaxKey_spec (fun p => p.1 + p.2) a as
    have hK : extractKeypoints pts = { pa := c1, pb := b, heelIsLeft := true } := by
      simp only [extractKeypoints]
      rw [h1, h2]
      simp only [Option.getD_some]
      rw [if_pos hlt.le, ha, hb]
      rfl
    rw [hK]
    refine ⟨rfl, rfl, by rw [ha]; exact hbmem, ?_⟩
    intro q hq
    rw [ha] at hq
    exact hbmax q hq
  · intro hlt
    obtain ⟨a, as, ha⟩ := List.exists_cons_of_ne_nil hlne
    obtain ⟨b, hb, hbmem, hbmin⟩ := argminKey_spec (fun p => p.1 - p.2) a as
    have hK : extractKeypoints pts = { pa := c2, pb := b, heelIsLeft := false } := by
      simp only [extractKeypoints]
      rw [h1, h2]
      simp only [Option.getD_some]
      rw [if_neg (not_le.mpr hlt), ha, hb]
      rfl
    rw [hK]
    refine ⟨rfl, rfl, by rw [ha]; exact hbmem, ?_⟩
    intro q hq
    rw [ha] at hq
    exact hbmin q hq

/-- Witness for C5 on the hull `[(0,5), (10,0)]`: the deeper-left landmark (0,5) becomes
Point A and the heel side is the left. -/
theorem orientation_and_point_b_selection_witness :
    (extractKeypoints [((0 : ℤ), (5 : ℤ)), (10, 0)]).heelIsLeft = true ∧
    (extractKeypoints [((0 : ℤ), (5 : ℤ)), (10, 0)]).pa = (0, 5) := by
  have h := orientation_and_point_b_selection [((0 : ℤ), (5 : ℤ)), (10, 0)] (0, 5) (10, 0)
    (by decide) (by decide)
  exact ⟨(h.1 (by decide)).1, (h.1 (by decide)).2.1⟩

/-- C6 as amended: for a nonempty half the selected point carries the maximal y, and its
x is the TRUNCATED mean (Python `int()`) of the x's of exactly the max-y candidates;
the selection is order-independent: permuting the points yields the same point. -/
theorem corner_point_truncated_mean (pts : List Pt) (hne : pts ≠ []) :
    getCornerPoint pts =
      some (Int.tdiv ((deepCandidates pts).map Prod.fst).sum
        ((deepCandidates pts).length : ℤ), yMaxOf pts) ∧
    (∀ p ∈ deepCandidates pts, p.2 = yMaxOf pts) ∧
    (∀ p ∈ pts, p.2 ≤ yMaxOf pts) ∧
    ∀ pts2 : List Pt, pts.Perm pts2 → getCornerPoint pts = getCornerPoint pts2 := by
  refine ⟨getCornerPoint_of_ne_nil hne, ?_, fun p hp => le_yMaxOf hp,
    fun pts2 h => getCornerPoint_perm h⟩
  intro p hp
  unfold deepCandidates at hp
  exact of_decide_eq_true (List.mem_filter.mp hp).2

/-- Witness for C6: permuting the two tied points `(0,5)`, `(1,5)` selects the same
corner point. -/
theorem corner_point_truncated_mean_witness :
    getCornerPoint [((0 : ℤ), (5 : ℤ)), (1, 5)] = getCornerPoint [((1 : ℤ), (5 : ℤ)), (0, 5)] :=
  (corner_point_truncated_mean [((0 : ℤ), (5 : ℤ)), (1, 5)] (by decide)).2.2.2
    [((1 : ℤ), (5 : ℤ)), (0, 5)] (by decide)

/-- C6 counterexample: the points `(0,5)` and `(1,5)` share the maximal y; the claim
demands x equal to their average `1/2`, but the code returns the truncated value 0. -/
theorem corner_tie_average_cex :
    getCornerPoint [((0 : ℤ), (5 : ℤ)), (1, 5)] = some (0, 5) ∧
    ¬ (((0 : ℤ) : ℚ) = ((0 : ℚ) + 1) / 2) := by
  exact ⟨by decide, by norm_num⟩

/-- C9 as amended: an empty left half does not fail: the missing left corner silently
falls back to the leftmost hull point `m` (line 83), and when the heel is on the right,
Point B falls back to `m` as well (line 119); a keypoint pair is always produced. -/
theorem empty_half_fallback (pts : List Pt) (c2 m : Pt)
    (hL : leftHalf pts = [])
    (h2 : getCornerPoint (rightHalf pts) = some c2)
    (hm : argminKey (fun p => p.1) pts = some m) :
    (c2.2 ≤ m.2 →
      extractKeypoints pts =
        { pa := m, pb := (argmaxKey (fun p => p.1 + p.2) (rightHalf pts)).getD c2,
          heelIsLeft := true }) ∧
    (m.2 < c2.2 →
      extractKeypoints pts = { pa := c2, pb := m, heelIsLeft := false }) := by
  constructor
  · intro hle
    simp only [extractKeypoints]
    rw [hL, h2, hm]
    simp only [getCornerPoint, Option.getD_none, Option.getD_some]
    rw [if_pos hle]
  · intro hlt
    simp only [extractKeypoints]
    rw [hL, h2, hm]
    simp only [getCornerPoint, Option.getD_none, Option.getD_some]
    rw [if_neg (not_le.mpr hlt)]
    simp [argminKey]

/-- Witness for C9 on the single-column hull `[(2,0), (2,5)]`. -/
theorem empty_half_fallback_witness :
    extractKeypoints [((2 : ℤ), (0 : ℤ)), (2, 5)] =
      { pa := (2, 5), pb := (2, 0), heelIsLeft := false } :=
  (empty_half_fallback [((2 : ℤ), (0 : ℤ)), (2, 5)] (2, 5) (2, 0)
    (by decide) (by decide) (by decide)).2 (by decide)

/-- C9 counterexample: on the single-column hull `[(2,0), (2,5)]` the left set is empty,
yet the pipeline produces a successful 90.0° measurement instead of failing with an
ambiguous-geometry signal. -/
theorem empty_half_silent_fallback_cex :
    leftHalf [((2 : ℤ), (0 : ℤ)), (2, 5)] = [] ∧
    extractKeypoints [((2 : ℤ), (0 : ℤ)), (2, 5)] =
      { pa := (2, 5), pb := (2, 0), heelIsLeft := false } ∧
    pitchFromHull [((2 : ℤ), (0 : ℤ)), (2, 5)] = 90 := by
  have hK : extractKeypoints [((2 : ℤ), (0 : ℤ)), (2, 5)] =
      { pa := (2, 5), pb := (2, 0), heelIsLeft := false } := by decide
  refine ⟨by decide, hK, ?_⟩
  unfold pitchFromHull
  rw [hK]
  norm_num [pitchAngle]

/-- C3 as amended: on an empty contour set `analyze` does not crash and returns an
error-free, success-shaped result whose only distinguishing mark is implicit: sentinel
angle 0.0, both line segments collapsed to the origin, and the 0.0 classified as
"Pes Planus" — there is no explicit no-bone-detected flag. -/
theorem empty_mask_sentinel_shape (input : ImgInput) (hull : List Pt) (wImg : ℤ)
    (hin : input = ImgInput.ndarray ∨ input = ImgInput.path true) :
    (analyze (some ()) input [] hull wImg).1.error = none ∧
    (analyze (some ()) input [] hull wImg).1.angle = 0 ∧
    (analyze (some ()) input [] hull wImg).1.diagnosis = "Pes Planus" ∧
    (analyze (some ()) input [] hull wImg).1.lines = [((0, 0), (0, 0)), ((0, 0), (0, 0))] := by
  have hr : analyzeCalcanealPitch [] hull wImg =
      { angle := 0, calcLine := ((0, 0), (0, 0)), groundLine := ((0, 0), (0, 0)) } := by
    unfold analyzeCalcanealPitch
    rw [if_pos rfl]
  have hc : (classifyAngle 0).1 = "Pes Planus" := by
    unfold classifyAngle
    rw [if_pos (by norm_num)]
  rcases hin with rfl | rfl <;>
    simp [analyze, hr, hc]

/-- Witness for C3 at the decoded-array input with image width 5. -/
theorem empty_mask_sentinel_shape_witness :
    (analyze (some ()) ImgInput.ndarray [] [] 5).1.lines =
      [((0, 0), (0, 0)), ((0, 0), (0, 0))] :=
  (empty_mask_sentinel_shape ImgInput.ndarray [] 5 (Or.inl rfl)).2.2.2

/-- C3 counterexample: with an empty contour set, `analyze` returns a result with no
error entry, angle 0.0 and diagnosis "Pes Planus" — i.e. a 0.0° angle packaged like a
valid measurement with no explicit distinguishing flag, not a structured
no-bone-detected error. -/
theorem empty_mask_no_error_flag_cex :
    (analyze (some ()) ImgInput.ndarray [] [] 100).1.error = none ∧
    (analyze (some ()) ImgInput.ndarray [] [] 100).1.angle = 0 ∧
    (analyze (some ()) ImgInput.ndarray [] [] 100).1.diagnosis = "Pes Planus" := by
  have hr : analyzeCalcanealPitch [] [] (100 : ℤ) =
      { angle := 0, calcLine := ((0, 0), (0, 0)), groundLine := ((0, 0), (0, 0)) } := by
    unfold analyzeCalcanealPitch
    rw [if_pos rfl]
  have hc : (classifyAngle 0).1 = "Pes Planus" := by
    unfold classifyAngle
    rw [if_pos (by norm_num)]
  simp [analyze, hr, hc]

/-- C8 as amended: when the weights file is absent or loading fails, the model is unset
and `analyze` performs neither inference nor geometry on any input; for every decodable
input it returns the explicit model-unavailable error; for an unreadable or invalid
input, the input error is reported first (the input check precedes the model check). -/
theorem model_unavailable_aborts (fileExists weightsLoadOk : Bool) (input : ImgInput)
    (contours : List (List Pt)) (hull : List Pt) (wImg : ℤ)
    (hfail : fileExists = false ∨ weightsLoadOk = false) :
    (analyze (loadModel fileExists weightsLoadOk) input contours hull wImg).1.error.isSome
      = true ∧
    PipeStep.predict ∉ (analyze (loadModel fileExists weightsLoadOk) input contours hull wImg).2 ∧
    PipeStep.geometry ∉ (analyze (loadModel fileExists weightsLoadOk) input contours hull wImg).2 ∧
    ((input = ImgInput.ndarray ∨ input = ImgInput.path true) →
      (analyze (loadModel fileExists weightsLoadOk) input contours hull wImg).1.error =
        some "Model yüklü değil") := by
  have hnone : loadModel fileExists weightsLoadOk = none := by
    rcases hfail with rfl | rfl
    · rfl
    · cases fileExists <;> rfl
  rw [hnone]
  cases input with
  | invalid =>
    refine ⟨rfl, by simp [analyze], by simp [analyze], ?_⟩
    rintro (h | h) <;> exact absurd h (by decide)
  | ndarray =>
    refine ⟨rfl, by simp [analyze], by simp [analyze], fun _ => rfl⟩
  | path readable =>
    cases readable with
    | false =>
      refine ⟨rfl, by simp [analyze], by simp [analyze], ?_⟩
      rintro (h | h) <;> exact absurd h (by decide)
    | true =>
      refine ⟨rfl, by simp [analyze], by simp [analyze], fun _ => rfl⟩

/-- Witness for C8: missing weights file, decoded-array input. -/
theorem model_unavailable_aborts_witness :
    (analyze (loadModel false true) ImgInput.ndarray [] [] 5).1.error =
      some "Model yüklü değil" :=
  (model_unavailable_aborts false true ImgInput.ndarray [] [] 5 (Or.inl rfl)).2.2.2
    (Or.inl rfl)

/-- C8 counterexample: with the weights missing AND an unreadable path input, `analyze`
reports the image-unreadable error, not the model-unavailable error — the input check
runs first, so the claim does not hold for every input. -/
theorem model_unavailable_not_first_cex :
    (analyze (loadModel false true) (ImgInput.path false) [] [] 5).1.error =
      some "Görüntü okunamadı" ∧
    (some "Görüntü okunamadı" : Option String) ≠ some "Model yüklü değil" := by
  exact ⟨rfl, by decide⟩

/-- C7 as amended: the absolute-slope angle formula itself is mirror-invariant —
mirroring both landmark endpoints leaves `pitchAngle` unchanged; the keypoint
selection, however, is not mirror-equivariant (orientation and averaging tie-breaks
are one-sided), so the end-to-end angle of a mirrored mask can differ (see the
counterexample). -/
theorem pitch_mirror_pair_invariant (w : ℤ) (pa pb : Pt) :
    pitchAngle ((mirrorPt w pb).1 - (mirrorPt w pa).1) ((mirrorPt w pb).2 - (mirrorPt w pa).2)
      = pitchAngle (pb.1 - pa.1) (pb.2 - pa.2) := by
  unfold mirrorPt
  have hdx : (w - 1 - pb.1) - (w - 1 - pa.1) = -(pb.1 - pa.1) := by ring
  simp only [hdx]
  unfold pitchAngle
  simp only [neg_eq_zero]
  split
  · rfl
  · push_cast
    rw [abs_neg]

/-- C7 counterexample: mirroring the convex hull (0,0),(7,0),(5,10),(3,10),(1,9)
in an image of width 8 changes the reported pitch angle: the original mask measures
the flat landmark pair (3,10)→(5,10), giving 0.0°, while the mirrored mask measures
(2,10)→(6,9), giving an angle of at least 8.9°. -/
theorem mirror_invariance_cex :
    pitchFromHull (hullExample.map (mirrorPt 8)) ≠ pitchFromHull hullExample := by
  have hK1 : extractKeypoints hullExample =
      { pa := (3, 10), pb := (5, 10), heelIsLeft := true } := by decide
  have hK2 : extractKeypoints (hullExample.map (mirrorPt 8)) =
      { pa := (2, 10), pb := (6, 9), heelIsLeft := true } := by decide
  have h1 : pitchFromHull hullExample = 0 := by
    unfold pitchFromHull
    rw [hK1]
    norm_num [pitchAngle, Real.arctan_zero, degOf_zero, round1_zero]
  have harc : (1 / 5 : ℝ) < Real.arctan (1 / 4) := by
    have hpos : 0 < Real.arctan (1 / 4 : ℝ) := by
      have h := Real.arctan_strictMono (show (0 : ℝ) < 1 / 4 by norm_num)
      rwa [Real.arctan_zero] at h
    have hlt := Real.sin_lt hpos
    rw [Real.sin_arctan] at hlt
    have hspos : 0 < Real.sqrt (1 + (1 / 4 : ℝ) ^ 2) := Real.sqrt_pos.mpr (by norm_num)
    have hsq : Real.sqrt (1 + (1 / 4 : ℝ) ^ 2) ≤ 5 / 4 := by
      calc Real.sqrt (1 + (1 / 4 : ℝ) ^ 2) ≤ Real.sqrt ((5 / 4 : ℝ) ^ 2) :=
            Real.sqrt_le_sqrt (by norm_num)
        _ = 5 / 4 := Real.sqrt_sq (by norm_num)
    have hge : (1 / 5 : ℝ) ≤ (1 / 4) / Real.sqrt (1 + (1 / 4 : ℝ) ^ 2) := by
      rw [le_div_iff hspos]
      linarith
    linarith
  have hdeg : (9 : ℝ) ≤ degOf (Real.arctan (1 / 4)) := by
    unfold degOf
    rw [le_div_iff Real.pi_pos]
    have hpi4 : Real.pi ≤ 4 := Real.pi_le_four
    nlinarith
  have h2 : 0 < pitchFromHull (hullExample.map (mirrorPt 8)) := by
    unfold pitchFromHull
    rw [hK2]
    have habs : (|(((9 : ℤ) - 10 : ℤ) : ℝ)| / |(((6 : ℤ) - 2 : ℤ) : ℝ)|) = 1 / 4 := by
      norm_num
    show 0 < pitchAngle ((6 : ℤ) - 2) ((9 : ℤ) - 10)
    unfold pitchAngle
    rw [if_neg (by norm_num), habs]
    exact round1_pos (le_trans (by norm_num) hdeg)
  rw [h1]
  exact ne_of_gt h2
